import Mathlib

/-!
Verification of the market-snapshot updater (update_snapshot.py).

The script fetches recent quotes for a fixed catalog of instruments and
rewrites the table body between literal markers in an HTML document.
We embed it shallowly:

* Python floats are modelled as exact rationals; the fixed-point format
  specifiers (",.2f", ".3f", ".4f") are modelled by rounding half-to-even
  at the requested number of decimals and rendering the digits, with
  optional thousands grouping of the integer part.
* The per-symbol data returned by the batch download is modelled as a
  function from ticker to a series of (date, optional close) rows; a
  missing column is the empty series (the script catches the per-symbol
  KeyError and skips the symbol, which coincides with the short-series
  skip).
* File effects of the patch step are modelled by an explicit operation
  trace (a read, then a write of the fully computed new contents on
  success; just the read when a marker is missing and str.index raises).
-/

/-- Absolute value of a rational, as the script's abs(val). -/
def qabs (q : ℚ) : ℚ := if q < 0 then -q else q

/-- The magnitude of v scaled to n decimals and rounded to the nearest
integer, ties to even — the rounding used by printf-style fixed-point
formatting.  Computed on the numerator and denominator directly:
the exact scaled magnitude is (v.num.natAbs * 10 ^ n) / v.den, whose
floor is the Nat division q with remainder r; it is rounded up exactly
when r / den > 1/2, and on a tie when the floor is odd. -/
def scaledAbs (v : ℚ) (n : Nat) : Nat :=
  let x := v.num.natAbs * 10 ^ n
  let d := v.den
  let q := x / d
  let r := x % d
  if 2 * r < d then q
  else if d < 2 * r then q + 1
  else if q % 2 = 0 then q else q + 1

/-- Decimal digits of a natural number, least significant first; the
fuel argument makes the recursion structural. -/
def toDigitsRev : Nat → Nat → List Char
  | 0, _ => []
  | fuel + 1, n => if n = 0 then [] else Nat.digitChar (n % 10) :: toDigitsRev fuel (n / 10)

/-- Decimal rendering of a natural number, most significant digit first. -/
def natChars (n : Nat) : List Char := if n = 0 then ['0'] else (toDigitsRev n n).reverse

/-- Exactly n decimal digits of m (mod 10^n), zero padded, most
significant first — the fractional part of a fixed-point rendering. -/
def fracDigits : Nat → Nat → List Char
  | 0, _ => []
  | k + 1, m => fracDigits k (m / 10) ++ [Nat.digitChar (m % 10)]

/-- Insert a comma after every third character, counting from the start
of the (reversed) digit list. -/
def groupRevAux : Nat → List Char → List Char
  | _, [] => []
  | 0, c :: cs => ',' :: c :: groupRevAux 2 cs
  | n + 1, c :: cs => c :: groupRevAux n cs

/-- Thousands grouping of a digit string, as the "," format flag. -/
def group3 (ds : List Char) : List Char := (groupRevAux 3 ds.reverse).reverse

/-- Unsigned fixed-point body: integer digits (optionally grouped), a
point, then exactly n fractional digits of the scaled value. -/
def fixedBody (scaled n : Nat) (g : Bool) : List Char :=
  (if g then group3 (natChars (scaled / 10 ^ n)) else natChars (scaled / 10 ^ n))
    ++ '.' :: fracDigits n (scaled % 10 ^ n)

/-- Fixed-point rendering of v with n decimals, grouping flag g: the
model of the Python format specifiers ",.2f" / ".3f" / ".4f". -/
def formatFixedChars (v : ℚ) (n : Nat) (g : Bool) : List Char :=
  (if v < 0 then ['-'] else []) ++ fixedBody (scaledAbs v n) n g

/-- Number of decimals of the tier selected from magnitude a: the three
if-branches of fmt_price and fmt_change (a >= 10, a >= 1, else). -/
def tierN (a : ℚ) : Nat := if 10 ≤ qabs a then 2 else if 1 ≤ qabs a then 3 else 4

/-- Whether the selected tier uses thousands grouping (only the >= 10
branch uses the "," flag). -/
def tierG (a : ℚ) : Bool := 10 ≤ qabs a

/-- fmt_price from the script: tier selected from the magnitude of the
value itself. -/
def fmt_price (val : ℚ) : String := ⟨formatFixedChars val (tierN val) (tierG val)⟩

/-- The explicit sign prepended by fmt_change: "+" if val >= 0 else "". -/
def plusSign (val : ℚ) : List Char := if 0 ≤ val then ['+'] else []

/-- fmt_change from the script: tier selected from the magnitude of the
reference ref, sign prefix from val. -/
def fmt_change (val ref : ℚ) : String :=
  ⟨plusSign val ++ formatFixedChars val (tierN ref) (tierG ref)⟩

/-- Zero-padded two-digit rendering of a day or month number. -/
def pad2 (n : Nat) : List Char := if n < 10 then '0' :: natChars n else natChars n

/-- fmt_time from the script: strftime("%d/%m") on a (day, month) date. -/
def fmt_time (dt : Nat × Nat) : String := ⟨pad2 dt.1 ++ '/' :: pad2 dt.2⟩

/-- The static catalog SECTIONS: (escaped title, list of (name, ticker)). -/
def SECTIONS : List (String × List (String × String)) := [
  ("Currencies &amp; Commodities", [
    ("US Dollar Index", "DX-Y.NYB"),
    ("AUD/USD", "AUDUSD=X"),
    ("USD/JPY", "JPY=X"),
    ("USD/HKD", "HKD=X"),
    ("USD/CHF", "CHF=X"),
    ("USD/ILS", "ILS=X"),
    ("EUR/ILS", "EURILS=X"),
    ("EUR/CHF", "EURCHF=X"),
    ("EUR/USD", "EURUSD=X"),
    ("EUR/GBP", "EURGBP=X"),
    ("GBP/CHF", "GBPCHF=X"),
    ("GBP/USD", "GBPUSD=X"),
    ("XAU/USD", "GC=F"),
    ("XAG/USD", "SI=F"),
    ("BTC/USD", "BTC-USD"),
    ("ETH/USD", "ETH-USD"),
    ("Crude Oil WTI", "CL=F"),
    ("Brent Oil", "BZ=F")]),
  ("U.S. Treasury Yields &amp; ETFs", [
    ("U.S. 3M", "^IRX"),
    ("U.S. 5Y", "^FVX"),
    ("U.S. 10Y", "^TNX"),
    ("U.S. 30Y", "^TYX"),
    ("iShares US Treasury", "GOVT"),
    ("SPDR 1-3M T-Bill", "BIL"),
    ("iShares 1-3Y Treasury", "SHY"),
    ("iShares 7-10Y Treasury", "IEF"),
    ("iShares 20+Y Treasury", "TLT"),
    ("ProShares Ultra Short 20+Y", "TBT"),
    ("PIMCO 25+Y Zero Coupon", "ZROZ")]),
  ("Global Market Indices", [
    ("MSCI World", "URTH"),
    ("Nikkei 225", "^N225"),
    ("Shanghai", "000001.SS"),
    ("Hang Seng", "^HSI"),
    ("Nifty 50", "^NSEI"),
    ("TA 35", "^TA35.TA"),
    ("Euro Stoxx 50", "^STOXX50E"),
    ("SMI", "^SSMI"),
    ("DAX", "^GDAXI"),
    ("CAC 40", "^FCHI"),
    ("S&amp;P 500", "^GSPC"),
    ("Dow Jones", "^DJI"),
    ("Nasdaq 100", "^NDX"),
    ("S&amp;P 500 VIX", "^VIX")])]

/-- One per-symbol downloaded series: rows of ((day, month), optional
close); None models a missing (NaN) entry dropped by dropna. -/
abbrev Series := List ((Nat × Nat) × Option ℚ)

/-- dropna on the close column, keeping the date index aligned. -/
def dropna (xs : Series) : List ((Nat × Nat) × ℚ) :=
  xs.filterMap (fun p => p.2.map (fun c => (p.1, c)))

/-- The percent-change expression of fetch_data:
(chg / prev) * 100 if prev else 0.0. -/
def chgPct (chg prev : ℚ) : ℚ := if prev ≠ 0 then chg / prev * 100 else 0

/-- One computed quote: the dict built per ticker by fetch_data. -/
structure Quote where
  last : ℚ
  chg : ℚ
  chg_pct : ℚ
  time : Nat × Nat
deriving DecidableEq

/-- The per-symbol body of fetch_data: after dropna, require at least
two points, take the last two closes and the last date. -/
def quoteOfSeries (xs : Series) : Option Quote :=
  match (dropna xs).reverse with
  | (dt, lastv) :: (_, prevv) :: _ =>
      some { last := lastv, chg := lastv - prevv,
             chg_pct := chgPct (lastv - prevv) prevv, time := dt }
  | _ => none

/-- fetch_data: walk the catalog in order and collect (ticker, quote)
for every symbol with a usable series; skipped symbols are absent. -/
def fetch_data (data : String → Series) : List (String × Quote) :=
  (SECTIONS.map (fun s => s.2.filterMap (fun ins =>
    (quoteOfSeries (data ins.2)).map (fun q => (ins.2, q))))).flatten

/-- The color class of a row: chg-pos when the raw change is >= 0. -/
def rowClass (d : Quote) : String := if 0 ≤ d.chg then "chg-pos" else "chg-neg"

/-- One instrument row of the table body, as the f-string in build_tbody. -/
def rowHtml (name : String) (d : Quote) : String :=
  "              <tr>" ++ "<td>" ++ name ++ "</td>" ++
  "<td>" ++ fmt_price d.last ++ "</td>" ++
  "<td class=\"" ++ rowClass d ++ "\">" ++ fmt_change d.chg d.last ++ "</td>" ++
  "<td class=\"" ++ rowClass d ++ "\">" ++ fmt_change d.chg_pct 100 ++ "%" ++ "</td>" ++
  "<td>" ++ fmt_time d.time ++ "</td>" ++ "</tr>"

/-- The instrument rows of one section: instruments without a quote are
skipped (the "continue"), the rest render in catalog order. -/
def instrumentRows (results : List (String × Quote)) (instrs : List (String × String)) :
    List String :=
  instrs.filterMap (fun ins => (results.lookup ins.2).map (fun d => rowHtml ins.1 d))

/-- The lines emitted for one section: comment, header row, instrument rows. -/
def sectionLines (results : List (String × Quote)) (s : String × List (String × String)) :
    List String :=
  ("              <!-- ── " ++ s.1 ++ " ── -->") ::
  ("              <tr class=\"section-header\"><td colspan=\"5\">" ++ s.1 ++ "</td></tr>") ::
  instrumentRows results s.2

/-- build_tbody: newline-join of all section lines in catalog order. -/
def build_tbody (results : List (String × Quote)) : String :=
  String.intercalate "\n" ((SECTIONS.map (sectionLines results)).flatten)

/-- The literal start marker of the patched region. -/
def startTag : List Char := "<tbody>".data

/-- The literal end marker of the patched region. -/
def endTag : List Char := "</tbody>".data

/-- Whether pat is an initial segment of l. -/
def isPre : List Char → List Char → Bool
  | [], _ => true
  | _ :: _, [] => false
  | a :: ps, b :: ls => a == b && isPre ps ls

/-- Scan for the first occurrence of pat, carrying the index reached. -/
def firstIdxAux : List Char → List Char → Nat → Option Nat
  | pat, [], k => if isPre pat [] then some k else none
  | pat, l@(_ :: ls), k => if isPre pat l then some k else firstIdxAux pat ls (k + 1)

/-- Index of the first occurrence of pat in l, as Python str.index
(searching from the beginning); none models the ValueError. -/
def firstIdx (l pat : List Char) : Option Nat := firstIdxAux pat l 0

/-- The characters inserted between the markers:
"\n" + tbody_html + "\n            ". -/
def midChars (tbody : String) : List Char :=
  "\n".data ++ tbody.data ++ "\n            ".data

/-- The new document contents: content[:i] + inserted + content[j:],
with i just past the start marker and j at the end marker. -/
def spliceChars (doc : List Char) (a b : Nat) (tbody : String) : List Char :=
  doc.take (a + startTag.length) ++ midChars tbody ++ doc.drop b

/-- update_html: locate both markers (str.index raises when absent) and
replace everything strictly between them. -/
def update_html (tbody doc : String) : Except String String :=
  match firstIdx doc.data startTag with
  | none => Except.error "substring not found"
  | some a =>
    match firstIdx doc.data endTag with
    | none => Except.error "substring not found"
    | some b => Except.ok ⟨spliceChars doc.data a b tbody⟩

/-- A file operation performed by the patch step on the target document. -/
inductive FileOp where
  | read : FileOp
  | write : String → FileOp
deriving DecidableEq

/-- The operation trace of update_html: read_text first, then
write_text of the fully computed new contents only on success. -/
def update_htmlTrace (tbody doc : String) : List FileOp :=
  match update_html tbody doc with
  | Except.ok c => [FileOp.read, FileOp.write c]
  | Except.error _ => [FileOp.read]

/-- The script's main: fetch, stop normally when nothing was fetched,
else patch the document. -/
def mainRun (data : String → Series) (doc : String) : Except String String :=
  let results := fetch_data data
  if results.isEmpty then Except.ok doc
  else update_html (build_tbody results) doc

/-- The document-operation trace of main: empty when the fetch produced
no results (the early return happens before the document is read). -/
def mainTrace (data : String → Series) (doc : String) : List FileOp :=
  let results := fetch_data data
  if results.isEmpty then []
  else update_htmlTrace (build_tbody results) doc

/-- Observer: number of characters after the last point of a rendered
number (its decimal places). -/
def decimalsAfterPoint (s : String) : Nat :=
  (s.data.reverse.takeWhile (fun c => c != '.')).length

/-- Observer: the integer-part characters of a rendered number (leading
minus sign stripped, up to the point). -/
def intPartChars (s : String) : List Char :=
  (s.data.dropWhile (fun c => c == '-')).takeWhile (fun c => c != '.')

/-- Observer: checks that commas partition a reversed digit string into
groups of three from the least significant end. -/
def chkA : Nat → List Char → Bool
  | _, [] => true
  | 0, c :: cs => c == ',' && chkA 3 cs
  | n + 1, c :: cs => c != ',' && chkA n cs

/-- A character that renders a single decimal digit. -/
def plainDigit (c : Char) : Prop := ∃ d, d < 10 ∧ c = Nat.digitChar d

/-! ### Helper lemmas: list utilities -/

theorem takeLenApp (X Y : List Char) : (X ++ Y).take X.length = X := by
  induction X with
  | nil => rfl
  | cons c cs ih => simp [ih]

theorem dropLenApp (X Y : List Char) : (X ++ Y).drop X.length = Y := by
  induction X with
  | nil => rfl
  | cons c cs ih => simp [ih]

theorem dropAppLe (X Y : List Char) (n : Nat) (h : n ≤ X.length) :
    (X ++ Y).drop n = X.drop n ++ Y := by
  induction X generalizing n with
  | nil => simp at h; simp [h]
  | cons c cs ih =>
    cases n with
    | zero => simp
    | succ m => simpa using ih m (by simpa using h)

theorem takeDropComm (l : List Char) (m n : Nat) :
    (l.take m).drop n = (l.drop n).take (m - n) := by
  induction l generalizing m n with
  | nil => simp
  | cons c cs ih =>
    cases m with
    | zero => simp
    | succ m2 =>
      cases n with
      | zero => simp
      | succ n2 => simpa [Nat.succ_sub_succ] using ih m2 n2

theorem takeWhileEat (p : Char → Bool) (a : List Char) (x : Char) (b : List Char)
    (ha : ∀ c ∈ a, p c = true) (hx : p x = false) :
    List.takeWhile p (a ++ x :: b) = a := by
  induction a with
  | nil => simp [List.takeWhile, hx]
  | cons c cs ih =>
    have hc : p c = true := ha c (by simp)
    simp only [List.cons_append, List.takeWhile, hc]
    simp [ih fun d hd => ha d (by simp [hd])]

/-! ### Helper lemmas: digit strings -/

theorem plainDigit_ne {c : Char} (h : plainDigit c) :
    c ≠ ',' ∧ c ≠ '.' ∧ c ≠ '-' ∧ c ≠ '+' := by
  obtain ⟨d, hd, rfl⟩ := h
  interval_cases d <;> exact ⟨by decide, by decide, by decide, by decide⟩

theorem mem_toDigitsRev {c : Char} (fuel m : Nat) (h : c ∈ toDigitsRev fuel m) :
    plainDigit c := by
  induction fuel generalizing m with
  | zero => simp [toDigitsRev] at h
  | succ f ih =>
    by_cases hm : m = 0
    · simp [toDigitsRev, hm] at h
    · simp only [toDigitsRev, if_neg hm, List.mem_cons] at h
      rcases h with h | h
      · exact ⟨m % 10, Nat.mod_lt _ (by omega), h⟩
      · exact ih _ h

theorem mem_natChars {c : Char} (m : Nat) (h : c ∈ natChars m) : plainDigit c := by
  by_cases hm : m = 0
  · simp [natChars, hm] at h
    exact ⟨0, by omega, h⟩
  · simp only [natChars, if_neg hm, List.mem_reverse] at h
    exact mem_toDigitsRev _ _ h

theorem mem_fracDigits {c : Char} (n m : Nat) (h : c ∈ fracDigits n m) : plainDigit c := by
  induction n generalizing m with
  | zero => simp [fracDigits] at h
  | succ k ih =>
    simp only [fracDigits, List.mem_append, List.mem_singleton] at h
    rcases h with h | h
    · exact ih _ h
    · exact ⟨m % 10, Nat.mod_lt _ (by omega), h⟩

theorem fracDigits_length (n m : Nat) : (fracDigits n m).length = n := by
  induction n generalizing m with
  | zero => rfl
  | succ k ih => simp [fracDigits, ih]

theorem mem_groupRevAux {c : Char} (n : Nat) (ds : List Char)
    (h : c ∈ groupRevAux n ds) : c = ',' ∨ c ∈ ds := by
  induction ds generalizing n with
  | nil => simp [groupRevAux] at h
  | cons x xs ih =>
    cases n with
    | zero =>
      simp only [groupRevAux, List.mem_cons] at h
      rcases h with h | h | h
      · exact Or.inl h
      · exact Or.inr (by simp [h])
      · rcases ih 2 h with h2 | h2
        · exact Or.inl h2
        · exact Or.inr (by simp [h2])
    | succ k =>
      simp only [groupRevAux, List.mem_cons] at h
      rcases h with h | h
      · exact Or.inr (by simp [h])
      · rcases ih k h with h2 | h2
        · exact Or.inl h2
        · exact Or.inr (by simp [h2])

theorem mem_group3 {c : Char} (ds : List Char) (h : c ∈ group3 ds) :
    c = ',' ∨ c ∈ ds := by
  simp only [group3, List.mem_reverse] at h
  rcases mem_groupRevAux _ _ h with h2 | h2
  · exact Or.inl h2
  · exact Or.inr (by simpa using h2)

theorem chkA_groupRevAux (ds : List Char) (n : Nat)
    (h : ∀ c ∈ ds, (c == ',') = false) :
    chkA n (groupRevAux n ds) = true := by
  induction ds generalizing n with
  | nil => cases n <;> rfl
  | cons x xs ih =>
    have hx : (x == ',') = false := h x (by simp)
    have hxne : x ≠ ',' := by
      intro hh
      simp [hh] at hx
    cases n with
    | zero =>
      simp only [groupRevAux, chkA]
      simp [hx, hxne, ih 2 fun c hc => h c (by simp [hc])]
    | succ k =>
      simp only [groupRevAux, chkA]
      simp [bne, hx, hxne, ih k fun c hc => h c (by simp [hc])]

theorem natChars_ne_nil (m : Nat) : natChars m ≠ [] := by
  by_cases hm : m = 0
  · simp [natChars, hm]
  · simp only [natChars, if_neg hm]
    intro hrev
    rw [List.reverse_eq_nil_iff] at hrev
    cases m with
    | zero => exact hm rfl
    | succ m2 => simp [toDigitsRev, hm] at hrev

theorem groupRevAux_ne_nil (n : Nat) (ds : List Char) (h : ds ≠ []) :
    groupRevAux n ds ≠ [] := by
  cases ds with
  | nil => exact absurd rfl h
  | cons x xs => cases n <;> simp [groupRevAux]

theorem group3_ne_nil (ds : List Char) (h : ds ≠ []) : group3 ds ≠ [] := by
  simp only [group3]
  intro hrev
  rw [List.reverse_eq_nil_iff] at hrev
  exact groupRevAux_ne_nil _ _ (by simpa using h) hrev

/-! ### Helper lemmas: structure of the fixed-point rendering -/

theorem qabs_eq_abs (q : ℚ) : qabs q = |q| := by
  unfold qabs
  split
  · exact (abs_of_neg (by assumption)).symm
  · exact (abs_of_nonneg (le_of_not_lt (by assumption))).symm

theorem mem_fixedBody {c : Char} (s n : Nat) (g : Bool) (h : c ∈ fixedBody s n g) :
    c = '.' ∨ c = ',' ∨ plainDigit c := by
  simp only [fixedBody, List.mem_append, List.mem_cons] at h
  rcases h with h | h | h
  · cases g with
    | true =>
      rcases mem_group3 _ (by simpa using h) with h2 | h2
      · exact Or.inr (Or.inl h2)
      · exact Or.inr (Or.inr (mem_natChars _ h2))
    | false =>
      exact Or.inr (Or.inr (mem_natChars _ (by simpa using h)))
  · exact Or.inl h
  · exact Or.inr (Or.inr (mem_fracDigits _ _ h))

theorem mem_fixedBody_ne_sign {c : Char} (s n : Nat) (g : Bool)
    (h : c ∈ fixedBody s n g) : c ≠ '+' ∧ c ≠ '-' := by
  rcases mem_fixedBody s n g h with h2 | h2 | h2
  · subst h2
    exact ⟨by decide, by decide⟩
  · subst h2
    exact ⟨by decide, by decide⟩
  · obtain ⟨-, -, h3, h4⟩ := plainDigit_ne h2
    exact ⟨h4, h3⟩

/-- The characters of the fixed-point body, split at the point:
integer part, the point, fractional part. -/
theorem fixedBody_split (s n : Nat) (g : Bool) :
    ∃ I F : List Char,
      fixedBody s n g = I ++ '.' :: F ∧ I ≠ [] ∧ F.length = n ∧
      (∀ c ∈ I, c = ',' ∨ plainDigit c) ∧ (∀ c ∈ F, plainDigit c) := by
  refine ⟨if g then group3 (natChars (s / 10 ^ n)) else natChars (s / 10 ^ n),
    fracDigits n (s % 10 ^ n), rfl, ?_, fracDigits_length _ _, ?_, ?_⟩
  · cases g with
    | true => simpa using group3_ne_nil _ (natChars_ne_nil _)
    | false => simpa using natChars_ne_nil _
  · intro c hc
    cases g with
    | true =>
      exact mem_group3 _ (by simpa using hc) |>.imp id (mem_natChars _)
    | false =>
      exact Or.inr (mem_natChars _ (by simpa using hc))
  · exact fun c hc => mem_fracDigits _ _ hc

/-- Decimal places of any rendering that ends in a point followed by
point-free characters. -/
theorem decimalsL (z F : List Char) (hF : ∀ c ∈ F, c ≠ '.') :
    ((z ++ '.' :: F).reverse.takeWhile (fun c => c != '.')).length = F.length := by
  have : (z ++ '.' :: F).reverse = F.reverse ++ '.' :: z.reverse := by
    simp [List.reverse_append]
  rw [this, takeWhileEat _ _ _ _ (fun c hc => by
      simp only [bne_iff_ne, ne_eq, decide_eq_true_eq]
      exact hF c (List.mem_reverse.mp hc)) (by simp)]
  simp

theorem decimals_formatFixed (pre : List Char) (v : ℚ) (n : Nat) (g : Bool) :
    decimalsAfterPoint ⟨pre ++ formatFixedChars v n g⟩ = n ∧
      '.' ∈ pre ++ formatFixedChars v n g := by
  obtain ⟨I, F, hsplit, -, hlen, -, hdig⟩ := fixedBody_split (scaledAbs v n) n g
  have hform : pre ++ formatFixedChars v n g
      = (pre ++ (if v < 0 then ['-'] else []) ++ I) ++ '.' :: F := by
    simp [formatFixedChars, hsplit, List.append_assoc]
  constructor
  · show ((pre ++ formatFixedChars v n g).reverse.takeWhile (fun c => c != '.')).length = n
    rw [hform, decimalsL _ _ (fun c hc => (plainDigit_ne (hdig c hc)).2.1), hlen]
  · rw [hform]
    simp

/-- The integer part of a grouped rendering, with any leading sign
stripped, passes the thousands-grouping check. -/
theorem chkA_formatFixed (v : ℚ) (n : Nat) :
    chkA 3 (intPartChars ⟨formatFixedChars v n true⟩).reverse = true := by
  have hC : ∀ c ∈ natChars (scaledAbs v n / 10 ^ n), (c == ',') = false := by
    intro c hc
    have := (plainDigit_ne (mem_natChars _ hc)).1
    simpa using this
  obtain ⟨c0, cs, hcons⟩ :
      ∃ c0 cs, group3 (natChars (scaledAbs v n / 10 ^ n)) = c0 :: cs := by
    rcases hg : group3 (natChars (scaledAbs v n / 10 ^ n)) with _ | ⟨c0, cs⟩
    · exact absurd hg (group3_ne_nil _ (natChars_ne_nil _))
    · exact ⟨c0, cs, rfl⟩
  have hc0 : c0 ∈ group3 (natChars (scaledAbs v n / 10 ^ n)) := by simp [hcons]
  have hc0ne : (c0 == '-') = false := by
    rcases mem_group3 _ hc0 with h2 | h2
    · simp [h2]
    · simpa using (plainDigit_ne (mem_natChars _ h2)).2.2.1
  have hItail : ∀ c ∈ group3 (natChars (scaledAbs v n / 10 ^ n)), (c != '.') = true := by
    intro c hc
    rcases mem_group3 _ hc with h2 | h2
    · simp [h2]
    · simpa using (plainDigit_ne (mem_natChars _ h2)).2.1
  have hdropped : (formatFixedChars v n true).dropWhile (fun c => c == '-')
      = group3 (natChars (scaledAbs v n / 10 ^ n)) ++ '.' :: fracDigits n (scaledAbs v n % 10 ^ n) := by
    unfold formatFixedChars fixedBody
    simp only [if_pos]
    split
    · rw [hcons]
      simp [List.dropWhile, hc0ne]
    · rw [hcons]
      simp [List.dropWhile, hc0ne]
  show chkA 3 (((String.mk (formatFixedChars v n true)).data.dropWhile
      (fun c => c == '-')).takeWhile (fun c => c != '.')).reverse = true
  rw [show (String.mk (formatFixedChars v n true)).data = formatFixedChars v n true from rfl]
  rw [hdropped, takeWhileEat _ _ _ _ hItail (by simp)]
  rw [show (group3 (natChars (scaledAbs v n / 10 ^ n))).reverse
      = groupRevAux 3 (natChars (scaledAbs v n / 10 ^ n)).reverse by
    simp [group3]]
  exact chkA_groupRevAux _ _ (fun c hc => hC c (List.mem_reverse.mp hc))

/-! ### Helper lemmas: marker search -/

theorem isPre_length {pat l : List Char} (h : isPre pat l = true) :
    pat.length ≤ l.length := by
  induction pat generalizing l with
  | nil => simp
  | cons a ps ih =>
    cases l with
    | nil => simp [isPre] at h
    | cons b ls =>
      simp only [isPre, Bool.and_eq_true] at h
      simpa using ih h.2

theorem isPre_take {pat l : List Char} (h : isPre pat l = true) :
    l.take pat.length = pat := by
  induction pat generalizing l with
  | nil => simp
  | cons a ps ih =>
    cases l with
    | nil => simp [isPre] at h
    | cons b ls =>
      simp only [isPre, Bool.and_eq_true, beq_iff_eq] at h
      simp [h.1.symm, ih h.2]

theorem isPre_self_app (p r : List Char) : isPre p (p ++ r) = true := by
  induction p with
  | nil => rfl
  | cons a ps ih => simp [isPre, ih]

theorem firstIdxAux_some {pat l : List Char} {k j : Nat}
    (h : firstIdxAux pat l k = some j) :
    ∃ m, j = k + m ∧ isPre pat (l.drop m) = true ∧
      ∀ i < m, isPre pat (l.drop i) = false := by
  induction l generalizing k with
  | nil =>
    by_cases hp : isPre pat [] = true
    · simp only [firstIdxAux, hp, if_true, Option.some.injEq] at h
      exact ⟨0, by omega, by simpa using hp, by omega⟩
    · simp only [firstIdxAux, if_neg hp] at h
      exact absurd h (by simp)
  | cons c ls ih =>
    by_cases hp : isPre pat (c :: ls) = true
    · simp only [firstIdxAux, hp, if_true, Option.some.injEq] at h
      exact ⟨0, by omega, by simpa using hp, by omega⟩
    · simp only [firstIdxAux, if_neg hp] at h
      obtain ⟨m, hm, hpre, hmin⟩ := ih h
      refine ⟨m + 1, by omega, by simpa using hpre, ?_⟩
      intro i hi
      cases i with
      | zero => simpa using Bool.eq_false_iff.mpr hp
      | succ i2 => simpa using hmin i2 (by omega)

theorem firstIdxAux_none {pat l : List Char} {k : Nat}
    (h : firstIdxAux pat l k = none) :
    ∀ m, isPre pat (l.drop m) = false := by
  induction l generalizing k with
  | nil =>
    by_cases hp : isPre pat [] = true
    · simp [firstIdxAux, hp] at h
    · intro m
      simpa using Bool.eq_false_iff.mpr hp
  | cons c ls ih =>
    by_cases hp : isPre pat (c :: ls) = true
    · simp [firstIdxAux, hp] at h
    · simp only [firstIdxAux, if_neg hp] at h
      intro m
      cases m with
      | zero => simpa using Bool.eq_false_iff.mpr hp
      | succ m2 => simpa using ih h m2

theorem firstIdx_some {l pat : List Char} {a : Nat}
    (h : firstIdx l pat = some a) :
    isPre pat (l.drop a) = true ∧ ∀ i < a, isPre pat (l.drop i) = false := by
  obtain ⟨m, hm, hpre, hmin⟩ := firstIdxAux_some h
  have : a = m := by omega
  subst this
  exact ⟨hpre, hmin⟩

theorem occ_isSome {l pat : List Char} (m : Nat)
    (h : isPre pat (l.drop m) = true) : (firstIdx l pat).isSome = true := by
  cases hf : firstIdx l pat with
  | some a => rfl
  | none => rw [firstIdxAux_none hf m] at h; exact absurd h (by simp)

/-! ### Helper lemmas: fetch results and row rendering -/

theorem quoteOfSeries_none {xs : Series} (h : (dropna xs).length < 2) :
    quoteOfSeries xs = none := by
  unfold quoteOfSeries
  rcases hrev : (dropna xs).reverse with _ | ⟨⟨dt, lastv⟩, _ | ⟨⟨dt2, prevv⟩, rest⟩⟩
  · rfl
  · rfl
  · have : (dropna xs).length = ((dropna xs).reverse).length := by simp
    rw [hrev] at this
    simp at this
    omega

theorem lookup_append_none {t : String} {l1 l2 : List (String × Quote)}
    (h1 : List.lookup t l1 = none) (h2 : List.lookup t l2 = none) :
    List.lookup t (l1 ++ l2) = none := by
  induction l1 with
  | nil => simpa using h2
  | cons p rest ih =>
    simp only [List.lookup, List.cons_append] at h1 ⊢
    cases hbe : (t == p.1) with
    | true => simp [hbe] at h1
    | false =>
      simp only [hbe] at h1 ⊢
      exact ih h1

theorem lookup_section_none {data : String → Series} {t : String}
    (hnone : quoteOfSeries (data t) = none) (instrs : List (String × String)) :
    List.lookup t (instrs.filterMap (fun ins =>
      (quoteOfSeries (data ins.2)).map (fun q => (ins.2, q)))) = none := by
  induction instrs with
  | nil => rfl
  | cons ins rest ih =>
    rw [List.filterMap_cons]
    cases hq : quoteOfSeries (data ins.2) with
    | none => exact ih
    | some q =>
      simp only [Option.map_some']
      simp only [List.lookup]
      cases hbe : (t == ins.2) with
      | true =>
        have : t = ins.2 := eq_of_beq hbe
        rw [← this] at hq
        rw [hnone] at hq
        exact absurd hq (by simp)
      | false => exact ih

theorem lookup_fetch_none {data : String → Series} {t : String}
    (hnone : quoteOfSeries (data t) = none) :
    List.lookup t (fetch_data data) = none := by
  show List.lookup t ((SECTIONS.map (fun s => s.2.filterMap (fun ins =>
    (quoteOfSeries (data ins.2)).map (fun q => (ins.2, q))))).flatten) = none
  induction SECTIONS with
  | nil => rfl
  | cons s rest ih =>
    rw [List.map_cons, List.flatten_cons]
    exact lookup_append_none (lookup_section_none hnone s.2) ih

theorem rows_skip {results : List (String × Quote)} {t : String}
    (hnone : List.lookup t results = none) (instrs : List (String × String)) :
    instrumentRows results instrs =
      instrumentRows results (instrs.filter (fun i => i.2 != t)) := by
  induction instrs with
  | nil => rfl
  | cons i rest ih =>
    show List.filterMap _ (i :: rest) = List.filterMap _ ((i :: rest).filter _)
    rw [List.filter_cons]
    by_cases hit : i.2 = t
    · have hdrop : (i.2 != t) = false := by simp [hit]
      have hlk : List.lookup i.2 results = none := by rw [hit]; exact hnone
      rw [List.filterMap_cons]
      rw [show (List.lookup i.2 results).map (fun d => rowHtml i.1 d) = none by
        rw [hlk]; rfl]
      simpa [hdrop] using ih
    · have hkeep : (i.2 != t) = true := by simp [hit]
      rw [hkeep]
      simp only [if_true]
      rw [List.filterMap_cons, List.filterMap_cons]
      cases hfi : (List.lookup i.2 results).map (fun d => rowHtml i.1 d) with
      | none => simpa [hfi] using ih
      | some row => simpa [hfi] using ih

/-! ### Helper lemmas: decimal literals as explicitly normalized rationals -/

theorem lit_1234_5 : (1234.5 : ℚ) = mkRat 12345 10 := by
  rw [show (1234.5 : ℚ) = Rat.ofScientific 12345 true 1 from rfl,
    Rat.ofScientific_true_def]
  decide

theorem lit_0_5123 : (0.5123 : ℚ) = mkRat 5123 10000 := by
  rw [show (0.5123 : ℚ) = Rat.ofScientific 5123 true 4 from rfl,
    Rat.ofScientific_true_def]
  decide

theorem lit_3_14159 : (3.14159 : ℚ) = mkRat 314159 100000 := by
  rw [show (3.14159 : ℚ) = Rat.ofScientific 314159 true 5 from rfl,
    Rat.ofScientific_true_def]
  decide

theorem lit_5_2 : (5.2 : ℚ) = mkRat 52 10 := by
  rw [show (5.2 : ℚ) = Rat.ofScientific 52 true 1 from rfl,
    Rat.ofScientific_true_def]
  decide

/-! ### The claims -/

/-- Claim C2: fmt_price renders exactly 2 decimal places (with thousands
grouping of the integer part) when the magnitude is at least 10, exactly
3 decimals when it is in [1, 10), and exactly 4 decimals below 1; and
the three spec examples evaluate as stated. -/
theorem claim_C2_fmt_price_tiers (v : ℚ) :
    ('.' ∈ (fmt_price v).data ∧
      decimalsAfterPoint (fmt_price v) =
        (if 10 ≤ |v| then 2 else if 1 ≤ |v| then 3 else 4)) ∧
    (10 ≤ |v| → chkA 3 (intPartChars (fmt_price v)).reverse = true) ∧
    fmt_price (1234.5 : ℚ) = "1,234.50" ∧
    fmt_price (0.5123 : ℚ) = "0.5123" ∧
    fmt_price (3.14159 : ℚ) = "3.142" := by
  have hd := decimals_formatFixed [] v (tierN v) (tierG v)
  rw [List.nil_append] at hd
  refine ⟨⟨hd.2, ?_⟩, ?_, ?_, ?_, ?_⟩
  · rw [show decimalsAfterPoint (fmt_price v)
        = decimalsAfterPoint ⟨formatFixedChars v (tierN v) (tierG v)⟩ from rfl, hd.1]
    simp only [tierN, qabs_eq_abs]
  · intro h10
    have hg : tierG v = true := decide_eq_true (by rwa [qabs_eq_abs])
    rw [show fmt_price v = ⟨formatFixedChars v (tierN v) (tierG v)⟩ from rfl, hg]
    exact chkA_formatFixed v (tierN v)
  · rw [lit_1234_5]; decide
  · rw [lit_0_5123]; decide
  · rw [lit_3_14159]; decide

/-- Claim C2 witness: the grouped branch instantiated at 1234.5, with
the magnitude hypothesis discharged concretely. -/
theorem claim_C2_witness :
    chkA 3 (intPartChars (fmt_price (1234.5 : ℚ))).reverse = true :=
  (claim_C2_fmt_price_tiers (1234.5 : ℚ)).2.1
    (by rw [lit_1234_5, ← qabs_eq_abs]; decide)

/-- Claim C3: fmt_change selects its decimal tier from the magnitude of
the reference argument, not from the change value; the rendered row uses
the last price as the reference for the absolute change and the constant
100 for the percent change (followed by a percent sign); and a percent
change of 5.2 renders as "+5.20". -/
theorem claim_C3_fmt_change_reference :
    (∀ v r : ℚ, decimalsAfterPoint (fmt_change v r) =
        (if 10 ≤ |r| then 2 else if 1 ≤ |r| then 3 else 4)) ∧
    (∀ (name : String) (d : Quote), ∃ pre mid post : List Char,
        (rowHtml name d).data = pre ++ (fmt_change d.chg d.last).data ++ mid ++
          (fmt_change d.chg_pct 100).data ++ '%' :: post) ∧
    fmt_change (5.2 : ℚ) 100 = "+5.20" := by
  refine ⟨?_, ?_, ?_⟩
  · intro v r
    have hd := (decimals_formatFixed (plusSign v) v (tierN r) (tierG r)).1
    rw [show decimalsAfterPoint (fmt_change v r)
        = decimalsAfterPoint ⟨plusSign v ++ formatFixedChars v (tierN r) (tierG r)⟩
        from rfl, hd]
    simp only [tierN, qabs_eq_abs]
  · intro name d
    refine ⟨("              <tr>" ++ "<td>" ++ name ++ "</td>" ++ "<td>"
        ++ fmt_price d.last ++ "</td>" ++ "<td class=\"" ++ rowClass d ++ "\">").data,
      ("</td>" ++ "<td class=\"" ++ rowClass d ++ "\">").data,
      ("</td>" ++ "<td>" ++ fmt_time d.time ++ "</td>" ++ "</tr>").data, ?_⟩
    rw [show ('%' : Char) :: ("</td>" ++ "<td>" ++ fmt_time d.time ++ "</td>"
        ++ "</tr>").data = ("%" ++ ("</td>" ++ "<td>" ++ fmt_time d.time ++ "</td>"
        ++ "</tr>")).data from rfl]
    simp only [rowHtml, String.data_append, List.append_assoc]
  · rw [lit_5_2]; decide

/-- Claim C8: fmt_change output begins with exactly one plus sign for
non-negative values, and carries exactly one leading minus sign for
negative values — never double-signed. -/
theorem claim_C8_fmt_change_signs (v r : ℚ) :
    (0 ≤ v → ∃ rest, (fmt_change v r).data = '+' :: rest ∧ '+' ∉ rest ∧ '-' ∉ rest) ∧
    (v < 0 → ∃ rest, (fmt_change v r).data = '-' :: rest ∧ '-' ∉ rest ∧ '+' ∉ rest) := by
  constructor
  · intro h
    refine ⟨fixedBody (scaledAbs v (tierN r)) (tierN r) (tierG r), ?_, ?_, ?_⟩
    · show plusSign v ++ formatFixedChars v (tierN r) (tierG r) = _
      rw [plusSign, if_pos h, formatFixedChars, if_neg (not_lt.2 h)]
      rfl
    · intro hmem
      exact absurd rfl (mem_fixedBody_ne_sign _ _ _ hmem).1
    · intro hmem
      exact absurd rfl (mem_fixedBody_ne_sign _ _ _ hmem).2
  · intro h
    refine ⟨fixedBody (scaledAbs v (tierN r)) (tierN r) (tierG r), ?_, ?_, ?_⟩
    · show plusSign v ++ formatFixedChars v (tierN r) (tierG r) = _
      rw [plusSign, if_neg (not_le.2 h), formatFixedChars, if_pos h]
      rfl
    · intro hmem
      exact absurd rfl (mem_fixedBody_ne_sign _ _ _ hmem).2
    · intro hmem
      exact absurd rfl (mem_fixedBody_ne_sign _ _ _ hmem).1

/-- Claim C8 witness: both sign branches at concrete inputs. -/
theorem claim_C8_witness :
    (∃ rest, (fmt_change (mkRat 3 1) (mkRat 5 1)).data = '+' :: rest
      ∧ '+' ∉ rest ∧ '-' ∉ rest) ∧
    (∃ rest, (fmt_change (mkRat (-3) 1) (mkRat 5 1)).data = '-' :: rest
      ∧ '-' ∉ rest ∧ '+' ∉ rest) :=
  ⟨(claim_C8_fmt_change_signs (mkRat 3 1) (mkRat 5 1)).1 (by decide),
   (claim_C8_fmt_change_signs (mkRat (-3) 1) (mkRat 5 1)).2 (by decide)⟩

/-- Claim C9: a change of exactly zero is treated as non-negative
everywhere in the output — the row color class is chg-pos and
fmt_change still leads with the plus sign, for every reference. -/
theorem claim_C9_zero_change (d : Quote) (h : d.chg = 0) :
    rowClass d = "chg-pos" ∧
      ∀ r : ℚ, (fmt_change d.chg r).data.head? = some '+' := by
  constructor
  · rw [rowClass, if_pos (by simp [h])]
  · intro r
    show (plusSign d.chg ++ formatFixedChars d.chg (tierN r) (tierG r)).head? = some '+'
    rw [plusSign, if_pos (by simp [h])]
    rfl

/-- Claim C9 witness: a concrete zero-change quote. -/
theorem claim_C9_witness :
    rowClass ⟨mkRat 5 1, 0, 0, (1, 2)⟩ = "chg-pos" ∧
      (fmt_change (Quote.chg ⟨mkRat 5 1, 0, 0, (1, 2)⟩) (mkRat 7 1)).data.head?
        = some '+' :=
  ⟨(claim_C9_zero_change ⟨mkRat 5 1, 0, 0, (1, 2)⟩ rfl).1,
   (claim_C9_zero_change ⟨mkRat 5 1, 0, 0, (1, 2)⟩ rfl).2 (mkRat 7 1)⟩

/-- Claim C5: the percent-change computation is guarded — it yields 0
when the previous close is 0 and the exact formula otherwise, and being
a total function it raises nothing. -/
theorem claim_C5_chgPct_guard (lastv prev : ℚ) :
    (prev = 0 → chgPct (lastv - prev) prev = 0) ∧
    (prev ≠ 0 → chgPct (lastv - prev) prev = (lastv - prev) / prev * 100) := by
  constructor
  · intro h
    subst h
    simp [chgPct]
  · intro h
    simp [chgPct, h]

/-- Claim C5 witness: both guard branches at concrete closes. -/
theorem claim_C5_witness :
    chgPct (mkRat 5 1 - 0) 0 = 0 ∧
    chgPct (mkRat 5 1 - mkRat 2 1) (mkRat 2 1)
      = (mkRat 5 1 - mkRat 2 1) / mkRat 2 1 * 100 :=
  ⟨(claim_C5_chgPct_guard (mkRat 5 1) 0).1 rfl,
   (claim_C5_chgPct_guard (mkRat 5 1) (mkRat 2 1)).2 (by decide)⟩

/-- Claim C4: a symbol whose series keeps fewer than 2 valid points
after dropna produces no Quote (its ticker is absent from the fetch
results), and rendering skips it entirely — the rendered rows equal the
rows of the catalog with that ticker removed, preserving the relative
order of the remaining instruments. -/
theorem claim_C4_short_series_skipped (data : String → Series) (t : String)
    (h : (dropna (data t)).length < 2) :
    List.lookup t (fetch_data data) = none ∧
    ∀ instrs : List (String × String),
      instrumentRows (fetch_data data) instrs =
        instrumentRows (fetch_data data) (instrs.filter (fun i => i.2 != t)) := by
  have hq := quoteOfSeries_none h
  exact ⟨lookup_fetch_none hq, fun instrs => rows_skip (lookup_fetch_none hq) instrs⟩

/-- Claim C4 witness: a data source giving BTC-USD a single point. -/
theorem claim_C4_witness :
    List.lookup "BTC-USD" (fetch_data (fun s =>
      if s == "BTC-USD" then [((1, 2), some (mkRat 5 1))]
      else [((1, 2), some (mkRat 3 1)), ((2, 2), some (mkRat 4 1))])) = none ∧
    instrumentRows (fetch_data (fun s =>
        if s == "BTC-USD" then [((1, 2), some (mkRat 5 1))]
        else [((1, 2), some (mkRat 3 1)), ((2, 2), some (mkRat 4 1))]))
        [("BTC/USD", "BTC-USD")] =
      instrumentRows (fetch_data (fun s =>
        if s == "BTC-USD" then [((1, 2), some (mkRat 5 1))]
        else [((1, 2), some (mkRat 3 1)), ((2, 2), some (mkRat 4 1))]))
        ([("BTC/USD", "BTC-USD")].filter (fun i => i.2 != "BTC-USD")) :=
  ⟨(claim_C4_short_series_skipped _ "BTC-USD" (by decide)).1,
   (claim_C4_short_series_skipped _ "BTC-USD" (by decide)).2 [("BTC/USD", "BTC-USD")]⟩

/-- Claim C7: when the fetch produced an empty results mapping, the run
ends normally (ok, no exception) and the document is untouched — its
contents pass through unchanged and no document operation happens. -/
theorem claim_C7_empty_results (data : String → Series) (doc : String)
    (h : fetch_data data = []) :
    mainRun data doc = Except.ok doc ∧ mainTrace data doc = [] := by
  constructor
  · simp [mainRun, h]
  · simp [mainTrace, h]

/-- Claim C7 witness: a data source with no usable series at all. -/
theorem claim_C7_witness :
    mainRun (fun _ => []) "snapshot" = Except.ok "snapshot" ∧
      mainTrace (fun _ => []) "snapshot" = [] :=
  claim_C7_empty_results (fun _ => []) "snapshot" rfl

/-- Claim C1: when either marker is absent update_html raises (returns
an error) and the document is only read, never written; and in general
any write it performs carries exactly the fully computed new contents. -/
theorem claim_C1_missing_marker_raises (tbody doc : String) :
    ((firstIdx doc.data startTag = none ∨ firstIdx doc.data endTag = none) →
      (∃ e, update_html tbody doc = Except.error e) ∧
      update_htmlTrace tbody doc = [FileOp.read]) ∧
    (∀ c, FileOp.write c ∈ update_htmlTrace tbody doc →
      update_html tbody doc = Except.ok c) := by
  constructor
  · intro h
    have herr : ∃ e, update_html tbody doc = Except.error e := by
      rcases h with h1 | h2
      · exact ⟨"substring not found", by simp only [update_html, h1]⟩
      · cases hs : firstIdx doc.data startTag with
        | none => exact ⟨"substring not found", by simp only [update_html, hs]⟩
        | some a => exact ⟨"substring not found", by simp only [update_html, hs, h2]⟩
    obtain ⟨e, he⟩ := herr
    exact ⟨⟨e, he⟩, by simp only [update_htmlTrace, he]⟩
  · intro c hmem
    cases hu : update_html tbody doc with
    | error e =>
      rw [show update_htmlTrace tbody doc = [FileOp.read] by
        simp only [update_htmlTrace, hu]] at hmem
      simp at hmem
    | ok c0 =>
      rw [show update_htmlTrace tbody doc = [FileOp.read, FileOp.write c0] by
        simp only [update_htmlTrace, hu]] at hmem
      simp at hmem
      subst hmem
      rfl

/-- Claim C1 witness: a document with the start marker but no end
marker errors after only a read; a well-formed document is written with
exactly the computed contents. -/
theorem claim_C1_witness :
    ((∃ e, update_html "X" "<tbody> but no end" = Except.error e) ∧
      update_htmlTrace "X" "<tbody> but no end" = [FileOp.read]) ∧
    update_html "X" "<p><tbody>old</tbody></p>" =
      Except.ok "<p><tbody>\nX\n            </tbody></p>" :=
  ⟨(claim_C1_missing_marker_raises "X" "<tbody> but no end").1 (Or.inr (by decide)),
   (claim_C1_missing_marker_raises "X" "<p><tbody>old</tbody></p>").2
     "<p><tbody>\nX\n            </tbody></p>" (by decide)⟩

/-- Claim C6: with both markers present, update_html succeeds and
replaces only the content strictly between them: the bytes up to and
including the start marker and the bytes from the end marker onward are
unchanged, and both markers survive in the output, so a re-run finds
them again and raises nothing. -/
theorem claim_C6_patch_frame (tbody doc : String) (a b : Nat)
    (h1 : firstIdx doc.data startTag = some a)
    (h2 : firstIdx doc.data endTag = some b) :
    update_html tbody doc = Except.ok ⟨spliceChars doc.data a b tbody⟩ ∧
    (spliceChars doc.data a b tbody).take (a + startTag.length)
      = doc.data.take (a + startTag.length) ∧
    (spliceChars doc.data a b tbody).drop
      (a + startTag.length + (midChars tbody).length) = doc.data.drop b ∧
    (firstIdx (spliceChars doc.data a b tbody) startTag).isSome = true ∧
    (firstIdx (spliceChars doc.data a b tbody) endTag).isSome = true := by
  have hpre := (firstIdx_some h1).1
  have hpreE := (firstIdx_some h2).1
  have hlen7 : startTag.length ≤ (doc.data.drop a).length := isPre_length hpre
  have hlen : a + startTag.length ≤ doc.data.length := by
    rw [List.length_drop, show startTag.length = 7 from rfl] at hlen7
    rw [show startTag.length = 7 from rfl]
    omega
  have hX : (doc.data.take (a + startTag.length)).length = a + startTag.length := by
    rw [List.length_take]
    omega
  have hsplice : spliceChars doc.data a b tbody
      = doc.data.take (a + startTag.length) ++
        (midChars tbody ++ doc.data.drop b) := by
    rw [spliceChars, List.append_assoc]
  have htake : (spliceChars doc.data a b tbody).take (a + startTag.length)
      = doc.data.take (a + startTag.length) := by
    rw [hsplice]
    nth_rewrite 1 [← hX]
    exact takeLenApp _ _
  have hdrop : (spliceChars doc.data a b tbody).drop
      (a + startTag.length + (midChars tbody).length) = doc.data.drop b := by
    have hW : (doc.data.take (a + startTag.length) ++ midChars tbody).length
        = a + startTag.length + (midChars tbody).length := by
      rw [List.length_append, hX]
    rw [spliceChars, ← hW]
    exact dropLenApp _ _
  refine ⟨by simp only [update_html, h1, h2], htake, hdrop, ?_, ?_⟩
  · have houtdrop : (spliceChars doc.data a b tbody).drop a
        = startTag ++ (midChars tbody ++ doc.data.drop b) := by
      rw [hsplice, dropAppLe _ _ a (by omega)]
      have hseg : (doc.data.take (a + startTag.length)).drop a = startTag := by
        rw [takeDropComm]
        rw [show a + startTag.length - a = startTag.length by omega]
        exact isPre_take hpre
      rw [hseg]
    exact occ_isSome a (by rw [houtdrop]; exact isPre_self_app _ _)
  · exact occ_isSome (a + startTag.length + (midChars tbody).length)
      (by rw [hdrop]; exact hpreE)

/-- Claim C6 witness: a well-formed document patched concretely; the
prefix through the start marker and the suffix from the end marker
persist, and both markers are still found afterwards. -/
theorem claim_C6_witness :
    update_html "ROWS" "<html><tbody>x</tbody></html>" =
      Except.ok "<html><tbody>\nROWS\n            </tbody></html>" ∧
    (firstIdx (spliceChars ("<html><tbody>x</tbody></html>" : String).data 6 14 "ROWS")
      startTag).isSome = true ∧
    (firstIdx (spliceChars ("<html><tbody>x</tbody></html>" : String).data 6 14 "ROWS")
      endTag).isSome = true :=
  ⟨((claim_C6_patch_frame "ROWS" "<html><tbody>x</tbody></html>" 6 14
      (by decide) (by decide)).1).trans rfl,
   (claim_C6_patch_frame "ROWS" "<html><tbody>x</tbody></html>" 6 14
      (by decide) (by decide)).2.2.2.1,
   (claim_C6_patch_frame "ROWS" "<html><tbody>x</tbody></html>" 6 14
      (by decide) (by decide)).2.2.2.2⟩

/-- Claim C10: update_html never checks marker uniqueness — whenever
each marker occurs at least once it succeeds, and the splice points are
the first occurrence of each marker searched from the beginning. -/
theorem claim_C10_first_occurrences (tbody doc : String) (a b : Nat)
    (h1 : firstIdx doc.data startTag = some a)
    (h2 : firstIdx doc.data endTag = some b) :
    update_html tbody doc = Except.ok ⟨spliceChars doc.data a b tbody⟩ ∧
    (isPre startTag (doc.data.drop a) = true ∧
      ∀ k < a, isPre startTag (doc.data.drop k) = false) ∧
    (isPre endTag (doc.data.drop b) = true ∧
      ∀ k < b, isPre endTag (doc.data.drop k) = false) := by
  refine ⟨by simp only [update_html, h1, h2], firstIdx_some h1, firstIdx_some h2⟩

/-- Claim C10 witness: a document with each marker duplicated is
patched without error, splicing at the first occurrences. -/
theorem claim_C10_witness :
    update_html "B" "<tbody><tbody>A</tbody></tbody>" =
      Except.ok "<tbody>\nB\n            </tbody></tbody>" ∧
    isPre endTag (("<tbody><tbody>A</tbody></tbody>" : String).data.drop 15) = true :=
  ⟨((claim_C10_first_occurrences "B" "<tbody><tbody>A</tbody></tbody>" 0 15
      (by decide) (by decide)).1).trans rfl,
   (claim_C10_first_occurrences "B" "<tbody><tbody>A</tbody></tbody>" 0 15
      (by decide) (by decide)).2.2.1⟩
